import Mathlib

/-
  Verification of the PDF streaming proxy with range-aware chunk caching
  (BookMark repository).

  The development shallowly embeds the proxy route code:
    * PDFChunkCache / PDFCache  (in-memory cache with LFU/LRU eviction and TTL)
    * parseRange / parseRangeHeader  (RFC 7233 single-range parser)
    * validateSupabasePdfUrl / validateUrl  (https + .pdf URL guard)
    * the GET proxy request handler of the global-cache variant.

  Modelling conventions:
    * JS strings are `List Char`; JS numbers that can be NaN are `Option Int`
      (`none` = NaN); exact integer arithmetic is `Int`.
    * ArrayBuffers are `List Nat` (byte lists).  For the aliasing claims a
      second instantiation keeps buffers in an explicit heap
      (`List (List Nat)`) and stores heap addresses in the cache, so that
      "returns a copy" versus "returns a reference" is observable.
    * The JS `Map` is an association list in insertion order: `Map.get` finds
      the first matching key, `Map.set` overwrites in place or appends, and
      `Map.delete` removes the entry.
    * The `while` eviction loop of `set` is modelled with fuel
      `entries.length + 1`; the result is `none` exactly when the JS loop
      would not terminate (which requires an empty-string key, see below).
-/

namespace BookMark

/-- Convert a Lean string literal to the character-list model of JS strings. -/
def str (s : String) : List Char := s.toList

/-- ASCII whitespace recognised by the model of String.prototype.trim and
parseInt (the source never feeds other whitespace). -/
def isWsChar (c : Char) : Bool := c = ' ' ∨ c = '\t' ∨ c = '\n' ∨ c = '\r'

/-- Character class of the decimal digits. -/
def isDigitChar (c : Char) : Bool := '0' ≤ c ∧ c ≤ '9'

/-- Numeric value of a digit character. -/
def digitVal (c : Char) : Nat := c.toNat - 48

/-- Value of a digit string read in base 10, most significant digit first. -/
def digitsVal (l : List Char) : Nat := l.foldl (fun a c => 10 * a + digitVal c) 0

/-- JS number that may be NaN: `none` models NaN. -/
abbrev JSNum := Option Int

/-- JS comparison x < y: false when either side is NaN. -/
def jlt : JSNum → JSNum → Prop
  | some a, some b => a < b
  | _, _ => False

/-- JS comparison x > y: false when either side is NaN. -/
def jgt : JSNum → JSNum → Prop
  | some a, some b => b < a
  | _, _ => False

/-- JS comparison x >= y: false when either side is NaN. -/
def jge : JSNum → JSNum → Prop
  | some a, some b => b ≤ a
  | _, _ => False

instance : ∀ x y : JSNum, Decidable (jlt x y) := fun x y =>
  match x, y with
  | some a, some b => (inferInstance : Decidable (a < b))
  | some _, none => isFalse (fun h => h)
  | none, _ => isFalse (fun h => h)

instance : ∀ x y : JSNum, Decidable (jgt x y) := fun x y =>
  match x, y with
  | some a, some b => (inferInstance : Decidable (b < a))
  | some _, none => isFalse (fun h => h)
  | none, _ => isFalse (fun h => h)

instance : ∀ x y : JSNum, Decidable (jge x y) := fun x y =>
  match x, y with
  | some a, some b => (inferInstance : Decidable (b ≤ a))
  | some _, none => isFalse (fun h => h)
  | none, _ => isFalse (fun h => h)

/-- JS subtraction, NaN absorbing. -/
def jsub : JSNum → JSNum → JSNum
  | some a, some b => some (a - b)
  | _, _ => none

/-- Math.max(0, x); Math.max with a NaN argument yields NaN. -/
def jmax0 : JSNum → JSNum
  | some a => some (max 0 a)
  | none => none

/-- Model of JS parseInt(s, 10): skip leading whitespace, optional sign, then
the longest digit run; NaN (`none`) when no digit follows. Trailing
non-digit characters are ignored. -/
def js_parseInt (s : List Char) : JSNum :=
  match s.dropWhile isWsChar with
  | [] => none
  | c :: r =>
      if c = '-' then
        let d := r.takeWhile isDigitChar
        if d = [] then none else some (-(digitsVal d : Int))
      else if c = '+' then
        let d := r.takeWhile isDigitChar
        if d = [] then none else some ((digitsVal d : Int))
      else
        let d := (c :: r).takeWhile isDigitChar
        if d = [] then none else some ((digitsVal d : Int))

/-- Model of String.prototype.split with a single-character separator,
matching JS semantics (empty fields are kept; the result is never empty). -/
def splitOnChar (sep : Char) : List Char → List (List Char)
  | [] => [[]]
  | c :: rest =>
      if c = sep then [] :: splitOnChar sep rest
      else
        match splitOnChar sep rest with
        | [] => [[c]]
        | h :: t => (c :: h) :: t

/-- Model of String.prototype.trim (both ends). -/
def jsTrim (s : List Char) : List Char :=
  ((s.dropWhile isWsChar).reverse.dropWhile isWsChar).reverse

/-- JS array destructuring of the first two elements: the second component is
`none` when the array has fewer than two elements (JS: undefined). -/
def first2 : List (List Char) → List Char × Option (List Char)
  | [] => ([], none)
  | [a] => (a, none)
  | a :: b :: _ => (a, some b)

/-- RangeRequest of the source: start and end byte offsets (inclusive) and the
total resource length; the fields are JS numbers, so NaN can appear when the
handler passes a NaN content length. The source field end is a Lean keyword
and is called stop here. -/
structure RangeReq where
  start : JSNum
  stop : JSNum
  total : JSNum
deriving DecidableEq, Repr

/-- Shared final validation of parseRangeHeader:
if (start < 0 or end >= contentLength or start > end) return null. -/
def rangeValidate (start stop contentLength : JSNum) : Option RangeReq :=
  if jlt start (some 0) ∨ jge stop contentLength ∨ jgt start stop then none
  else some ⟨start, stop, contentLength⟩

/-- Embedding of parseRangeHeader (global variant); parseRange of the per-book
variant has identical logic. Parses an HTTP Range header against a content
length into a validated interval, or null. -/
def parseRangeHeader (rangeHeader : List Char) (contentLength : JSNum) : Option RangeReq :=
  if ¬ (str "bytes=").isPrefixOf rangeHeader then none
  else
    let ranges := splitOnChar ',' (rangeHeader.drop 6)
    if ranges.length ≠ 1 then none
    else
      let p := first2 (splitOnChar '-' (jsTrim (ranges.headD [])))
      if p.1 = [] then
        -- suffix range -N: parseInt of undefined is NaN
        match (match p.2 with | some es => js_parseInt es | none => none) with
        | none => none
        | some suffix =>
            rangeValidate (jmax0 (jsub contentLength (some suffix)))
              (jsub contentLength (some 1)) contentLength
      else if p.2 = some [] then
        -- open range N-
        match js_parseInt p.1 with
        | none => none
        | some s => rangeValidate (some s) (jsub contentLength (some 1)) contentLength
      else
        -- explicit range N-M (p.2 = none means a lone component; parseInt of
        -- undefined is NaN and the branch returns null)
        match js_parseInt p.1, (match p.2 with | some es => js_parseInt es | none => none) with
        | some s, some e => rangeValidate (some s) (some e) contentLength
        | _, _ => none

/-! ## The chunk cache

PDFChunkCache (per-book variant) and PDFCache (global variant) share the
entry type, the eviction scan and the eviction loop verbatim; PDFCache
additionally runs a cleanup sweep at the start of get and set. Both caches
have maxSize = 50 * 1024 * 1024 and ttl = 5 * 60 * 1000. The data type of the
buffer is a parameter: List Nat gives the by-value reading of ArrayBuffers
(slice(0) is the identity on values), and Nat gives the heap-address reading
used to settle the aliasing claim. -/

/-- Source constant: private readonly maxSize = 50 * 1024 * 1024. -/
def maxSize : Int := 50 * 1024 * 1024

/-- Source constant: private readonly ttl = 5 * 60 * 1000. -/
def ttl : Int := 5 * 60 * 1000

/-- CacheEntry of the source: buffer, insertion timestamp, access statistics
and byte size. -/
structure Entry (α : Type) where
  data : α
  timestamp : Int
  accessCount : Nat
  lastAccessed : Int
  size : Nat
deriving DecidableEq, Repr

/-- State of one cache instance: the Map as an association list in insertion
order, and the running byte counter currentSize. -/
structure CacheSt (α : Type) where
  entries : List (List Char × Entry α)
  currentSize : Int
deriving DecidableEq, Repr

/-- Model of Map.prototype.get: first entry with the given key. -/
def lookupE {α : Type} (k : List Char) : List (List Char × Entry α) → Option (Entry α)
  | [] => none
  | kv :: rest => if kv.1 = k then some kv.2 else lookupE k rest

/-- Model of Map.prototype.delete: drop the entry with the given key. -/
def eraseKey {α : Type} (k : List Char) : List (List Char × Entry α) → List (List Char × Entry α)
  | [] => []
  | kv :: rest => if kv.1 = k then rest else kv :: eraseKey k rest

/-- Model of Map.prototype.set: overwrite in place, else append. -/
def mapSet {α : Type} (k : List Char) (e : Entry α) :
    List (List Char × Entry α) → List (List Char × Entry α)
  | [] => [(k, e)]
  | kv :: rest => if kv.1 = k then (k, e) :: rest else kv :: mapSet k e rest

/-- Sum of the size fields of the resident entries (the quantity the
currentSize counter is supposed to track). -/
def sumSizes {α : Type} (l : List (List Char × Entry α)) : Int :=
  (l.map (fun kv => (kv.2.size : Int))).sum

/-- Source: isExpired(entry) = Date.now() - entry.timestamp > this.ttl. -/
def isExpired {α : Type} (now : Int) (e : Entry α) : Bool := now - e.timestamp > ttl

/-- Accumulator of the eviction scan: oldestKey, oldestTime, smallestAccess.
smallestAccess starts as Infinity, modelled by none. -/
structure ScanAcc where
  oldestKey : List Char
  oldestTime : Int
  smallestAccess : Option Nat
deriving DecidableEq, Repr

/-- Comparison accessCount < smallestAccess, where none is Infinity. -/
def accLt (a : Nat) : Option Nat → Prop
  | none => True
  | some b => a < b

/-- Comparison accessCount === smallestAccess, where none is Infinity. -/
def accEq (a : Nat) : Option Nat → Prop
  | none => False
  | some b => a = b

instance : ∀ (a : Nat) (b : Option Nat), Decidable (accLt a b) := fun a b =>
  match b with
  | none => isTrue trivial
  | some c => (inferInstance : Decidable (a < c))

instance : ∀ (a : Nat) (b : Option Nat), Decidable (accEq a b) := fun a b =>
  match b with
  | none => isFalse (fun h => h)
  | some c => (inferInstance : Decidable (a = c))

/-- Body of the for-of loop in evictLRU. -/
def scanStep {α : Type} (acc : ScanAcc) (kv : List Char × Entry α) : ScanAcc :=
  if accLt kv.2.accessCount acc.smallestAccess ∨
      (accEq kv.2.accessCount acc.smallestAccess ∧ kv.2.lastAccessed < acc.oldestTime) then
    ⟨kv.1, kv.2.lastAccessed, some kv.2.accessCount⟩
  else acc

/-- The scan of evictLRU over all entries; oldestTime starts at Date.now(). -/
def evictScan {α : Type} (now : Int) (l : List (List Char × Entry α)) : ScanAcc :=
  l.foldl scanStep ⟨[], now, none⟩

/-- Embedding of evictLRU (identical in both cache classes): scan for the
entry with the smallest accessCount, oldest lastAccessed on a tie, and remove
it. The guard if (oldestKey) is string truthiness: an empty-string winner is
not removed. The non-null assertion on Map.get cannot fail because the winner
was seen by the scan; that dead branch returns the state unchanged. -/
def evictLRU {α : Type} (now : Int) (c : CacheSt α) : CacheSt α :=
  let acc := evictScan now c.entries
  if acc.oldestKey = [] then c
  else
    match lookupE acc.oldestKey c.entries with
    | some e => ⟨eraseKey acc.oldestKey c.entries, c.currentSize - e.size⟩
    | none => c

/-- Embedding of cleanup (PDFCache only): remove every expired entry and
subtract its size from currentSize. -/
def cleanup {α : Type} (now : Int) (c : CacheSt α) : CacheSt α :=
  ⟨c.entries.filter (fun kv => ¬ isExpired now kv.2),
   c.currentSize -
     ((c.entries.filter (fun kv => isExpired now kv.2)).map (fun kv => (kv.2.size : Int))).sum⟩

/-- Common body of get: lazy-expiry check, then access statistics update and
return of the stored data field. PDFChunkCache.get is this body; PDFCache.get
runs cleanup first. -/
def getOp {α : Type} (now : Int) (k : List Char) (c : CacheSt α) : Option α × CacheSt α :=
  match lookupE k c.entries with
  | none => (none, c)
  | some e =>
      if isExpired now e then
        (none, ⟨eraseKey k c.entries, c.currentSize - e.size⟩)
      else
        (some e.data,
         ⟨mapSet k { e with accessCount := e.accessCount + 1, lastAccessed := now } c.entries,
          c.currentSize⟩)

/-- PDFChunkCache.get, after the cache key has been computed. -/
def get1 {α : Type} (now : Int) (k : List Char) (c : CacheSt α) : Option α × CacheSt α :=
  getOp now k c

/-- PDFCache.get: cleanup, then the common body. -/
def get2 {α : Type} (now : Int) (k : List Char) (c : CacheSt α) : Option α × CacheSt α :=
  getOp now k (cleanup now c)

/-- Fuelled model of the eviction while-loop of set:
while (currentSize + size > maxSize and cache.size > 0) evictLRU().
With fuel entries.length + 1 the result is none exactly when the JS loop
would run forever (evictLRU making no progress on an empty-string key). -/
def evictLoop {α : Type} (now : Int) (size : Nat) : Nat → CacheSt α → Option (CacheSt α)
  | 0, c =>
      if maxSize < c.currentSize + (size : Int) ∧ 0 < c.entries.length then none else some c
  | fuel + 1, c =>
      if maxSize < c.currentSize + (size : Int) ∧ 0 < c.entries.length then
        evictLoop now size fuel (evictLRU now c)
      else some c

/-- First step of set: if an entry already exists at the key, subtract its
size from currentSize without removing it from the map. -/
def setSub {α : Type} (c : CacheSt α) (k : List Char) : CacheSt α :=
  match lookupE k c.entries with
  | some e => ⟨c.entries, c.currentSize - e.size⟩
  | none => c

/-- Common body of set: subtract the size of an existing entry at the key
(without removing it from the map), run the eviction loop, then insert a fresh
entry with accessCount 1 and add its size. The stored value is the slice(0)
copy of the caller's buffer and size its byteLength. -/
def setOp {α : Type} (now : Int) (k : List Char) (stored : α) (size : Nat)
    (c : CacheSt α) : Option (CacheSt α) :=
  (evictLoop now size ((setSub c k).entries.length + 1) (setSub c k)).map
    (fun c2 => ⟨mapSet k ⟨stored, now, 1, now, size⟩ c2.entries, c2.currentSize + size⟩)

/-- PDFChunkCache.set on the by-value buffer model: data.slice(0) is the
buffer value itself and size = data.byteLength. -/
def set1 (now : Int) (k : List Char) (d : List Nat) (c : CacheSt (List Nat)) :
    Option (CacheSt (List Nat)) :=
  setOp now k d d.length c

/-- PDFCache.set: cleanup, then the common body. -/
def set2 (now : Int) (k : List Char) (d : List Nat) (c : CacheSt (List Nat)) :
    Option (CacheSt (List Nat)) :=
  setOp now k d d.length (cleanup now c)

/-! ## Heap model for the aliasing claim

Buffers live in an explicit heap and the cache stores addresses. set reads
the caller's buffer, allocates a fresh copy (data.slice(0)) and stores the
copy's address; get hands back the stored address itself (the source returns
entry.data without copying). Mutating through an address reaches everyone
holding that address. -/

/-- Heap of ArrayBuffers, addressed by position. -/
abbrev Heap := List (List Nat)

/-- Read the bytes at an address. -/
def readBuf (h : Heap) (a : Nat) : List Nat := h.getD a []

/-- Overwrite the bytes at an address (mutation of an ArrayBuffer in place,
for example through a typed-array view). -/
def writeBuf (h : Heap) (a : Nat) (b : List Nat) : Heap := h.set a b

/-- Cache set on the heap model: size is the caller buffer's byteLength, the
stored data is the address of a freshly allocated copy (data.slice(0)). -/
def hset (now : Int) (k : List Char) (a : Nat) (h : Heap) (c : CacheSt Nat) :
    Option (Heap × CacheSt Nat) :=
  (setOp now k h.length (readBuf h a).length c).map (fun c2 => (h ++ [readBuf h a], c2))

/-- Cache get on the heap model: the returned value is the stored address
(entry.data), not a copy; identical buffer handling in both cache classes. -/
def hget (now : Int) (k : List Char) (c : CacheSt Nat) : Option Nat × CacheSt Nat :=
  getOp now k c

/-! ## URL validation and the proxy request handler (global-cache variant)

The WHATWG URL parser (new URL(...)) is a platform builtin, not repository
code; the embedding takes it as a parameter producing the three components
the validator inspects, with none for a parse failure (the caught
exception). The network is a Fetcher oracle giving the HEAD status, the
content-length header, and the GET status and body; the handler model counts
its HEAD calls, upstream GET calls, cache reads and cache writes. Timeouts
and network exceptions (the catch branch) are outside this model; every
oracle interaction returns. -/

/-- Components of a parsed URL used by validateUrl. -/
structure URLParts where
  protocol : List Char
  hostname : List Char
  pathname : List Char
deriving DecidableEq, Repr

/-- Model of String.prototype.toLowerCase on the ASCII range. -/
def jsToLower (s : List Char) : List Char :=
  s.map (fun c => if 'A' ≤ c ∧ c ≤ 'Z' then Char.ofNat (c.toNat + 32) else c)

/-- Embedding of validateUrl (global variant): https only, localhost and
private-prefix hosts blocked, path must end in .pdf after lowercasing; a URL
parse failure is false. The per-book validateSupabasePdfUrl is the same
without the host block. -/
def validateUrl (parseURL : List Char → Option URLParts) (url : List Char) : Bool :=
  match parseURL url with
  | none => false
  | some u =>
      if u.protocol ≠ str "https:" then false
      else if u.hostname = str "localhost" ∨ (str "127.").isPrefixOf u.hostname ∨
          (str "192.168.").isPrefixOf u.hostname ∨ (str "10.").isPrefixOf u.hostname ∨
          (str "172.").isPrefixOf u.hostname then false
      else if ¬ (str ".pdf").isSuffixOf (jsToLower u.pathname) then false
      else true

/-- Response.ok of fetch: the status is in the 2xx range. -/
def respOk (s : Nat) : Bool := 200 ≤ s ∧ s ≤ 299

/-- Decimal digit character. -/
def digitChar (d : Nat) : Char := Char.ofNat (48 + d)

/-- Decimal rendering of a natural number (template-literal interpolation). -/
def natDigits (n : Nat) : List Char :=
  if _h : n < 10 then [digitChar n]
  else natDigits (n / 10) ++ [digitChar (n % 10)]
decreasing_by exact Nat.div_lt_self (Nat.lt_of_lt_of_le (by decide) (Nat.le_of_not_lt _h)) (by decide)

/-- Decimal rendering of a JS number as it appears inside a template literal;
NaN prints as NaN. -/
def renderNum : JSNum → List Char
  | none => str "NaN"
  | some i => if i < 0 then '-' :: natDigits i.natAbs else natDigits i.natAbs

/-- Embedding of PDFCache.generateKey: url for a full fetch, or the template
literal url:start-end for a ranged fetch. -/
def generateKey (url : List Char) : Option RangeReq → List Char
  | some r => url ++ (':' :: renderNum r.start) ++ ('-' :: renderNum r.stop)
  | none => url

/-- Embedding of optimizeRange: returns the exact range with total set to the
discovered content length. -/
def optimizeRange (r : RangeReq) (cl : JSNum) : RangeReq := ⟨r.start, r.stop, cl⟩

/-- Network oracle for one request: upstream HEAD status, the content-length
header (none when absent), upstream GET status and body bytes. -/
structure Fetcher where
  headStatus : Nat
  headContentLength : Option (List Char)
  getStatus : Nat
  getBody : List Nat
deriving Repr

/-- Incoming request: the url query parameter and the Range header, each
possibly absent. -/
structure Req where
  urlParam : Option (List Char)
  rangeHeader : Option (List Char)
deriving Repr

/-- Observable outcome of one handler run: HTTP status, cache state after the
request, and how many upstream HEAD calls, upstream GET calls, cache reads
(pdfCache.get) and cache writes (pdfCache.set) were performed. -/
structure HRes where
  status : Nat
  cache : CacheSt (List Nat)
  headCalls : Nat
  getCalls : Nat
  cacheGets : Nat
  cacheSets : Nat
deriving DecidableEq, Repr

/-- The ASCII bytes of the PDF signature checked on full responses. -/
def pdfMagic : List Nat := [37, 80, 68, 70]

/-- Model of TextDecoder().decode for the ASCII bodies the check inspects. -/
def decodeBytes (b : List Nat) : List Char := b.map (fun n => Char.ofNat n)

/-- Model of String.prototype.includes. -/
def includesStr (needle hay : List Char) : Bool :=
  hay.tails.any (fun t => needle.isPrefixOf t)

/-- The small-body error heuristic of the handler: the decoded text is the
literal undefined or contains error or not found. -/
def looksError (b : List Nat) : Bool :=
  decodeBytes b = str "undefined" ∨ includesStr (str "error") (decodeBytes b) ∨
    includesStr (str "not found") (decodeBytes b)

/-- Upstream-miss tail of the handler: upstream GET, body validation, cache
write, response construction. hc and cg are the HEAD-call and cache-read
counts accumulated so far; the result is none when pdfCache.set would not
terminate. -/
def proxyMiss (f : Fetcher) (now : Int) (url : List Char) (range : Option RangeReq)
    (c1 : CacheSt (List Nat)) (hc cg : Nat) : Option HRes :=
  if ¬ respOk f.getStatus then some ⟨f.getStatus, c1, hc, 1, cg, 0⟩
  else if f.getBody.length = 0 then some ⟨502, c1, hc, 1, cg, 0⟩
  else if f.getBody.length < 100 ∧ looksError f.getBody then some ⟨404, c1, hc, 1, cg, 0⟩
  else if range = none ∧ f.getBody.take 4 ≠ pdfMagic ∧ f.getBody.length < 1000 then
    some ⟨422, c1, hc, 1, cg, 0⟩
  else
    match set2 now (generateKey url range) f.getBody c1 with
    | none => none
    | some c2 =>
        if range ≠ none ∧ f.getStatus = 206 then some ⟨206, c2, hc, 1, cg, 1⟩
        else some ⟨f.getStatus, c2, hc, 1, cg, 1⟩

/-- Cache probe and dispatch of the handler: the probe runs only when no
range was parsed (if (!range) around pdfCache.get); on a hit the source still
branches on range when building the response, and that ranged-hit branch is
kept although it is unreachable. -/
def proxyServe (f : Fetcher) (now : Int) (url : List Char) (range : Option RangeReq)
    (c0 : CacheSt (List Nat)) (hc : Nat) : Option HRes :=
  let probe : Option (List Nat) × CacheSt (List Nat) × Nat :=
    match range with
    | none => ((get2 now url c0).1, (get2 now url c0).2, 1)
    | some _ => (none, c0, 0)
  match probe with
  | (some _, c1, cg) =>
      if range ≠ none then some ⟨206, c1, hc, 0, cg, 0⟩
      else some ⟨200, c1, hc, 0, cg, 0⟩
  | (none, c1, cg) => proxyMiss f now url range c1 hc cg

/-- Embedding of the GET proxy handler of the global-cache variant: url
validation, content-length discovery and range parsing when a Range header is
present, cache probe, upstream fetch, cache fill and response. -/
def GET2 (parseURL : List Char → Option URLParts) (f : Fetcher) (now : Int) (req : Req)
    (c0 : CacheSt (List Nat)) : Option HRes :=
  match req.urlParam with
  | none => some ⟨400, c0, 0, 0, 0, 0⟩
  | some url =>
      if ¬ validateUrl parseURL url then some ⟨400, c0, 0, 0, 0, 0⟩
      else
        match req.rangeHeader with
        | some rh =>
            if ¬ respOk f.headStatus then some ⟨502, c0, 1, 0, 0, 0⟩
            else
              let cl := js_parseInt (f.headContentLength.getD (str "0"))
              if cl = some 0 then some ⟨502, c0, 1, 0, 0, 0⟩
              else
                match parseRangeHeader rh cl with
                | none => some ⟨416, c0, 1, 0, 0, 0⟩
                | some r0 => proxyServe f now url (some (optimizeRange r0 cl)) c0 1
        | none => proxyServe f now url none c0 0

/-! ## Concrete instances used by counterexamples and witnesses -/

/-- All-zero buffer of a given byte length; only its length is ever inspected
by the cache, which lets multi-megabyte buffers stay symbolic. -/
def zeros (n : Nat) : List Nat := List.replicate n 0

/-- Well-formed two-entry cache state exercising the replace-then-evict path
of set: 30 MiB at key a (accessCount 1) and 20 MiB at key b (accessCount 2),
currentSize exactly their sum. -/
def c1pre : CacheSt (List Nat) :=
  ⟨[(['a'], ⟨zeros 31457280, 0, 1, 0, 31457280⟩),
    (['b'], ⟨zeros 20971520, 0, 2, 0, 20971520⟩)], 52428800⟩

/-- Well-formed two-entry cache state for the oversized-set counterexample:
sizes 2 and 1 bytes, the key being overwritten holding the larger entry. -/
def c8pre : CacheSt (List Nat) :=
  ⟨[(['a'], ⟨zeros 2, 0, 1, 0, 2⟩), (['b'], ⟨zeros 1, 0, 2, 0, 1⟩)], 3⟩

/-- URL parser oracle accepting every string as a fixed valid https .pdf URL;
used to drive handler scenarios. -/
def puAll : List Char → Option URLParts :=
  fun _ => some ⟨str "https:", str "example.com", str "/a.pdf"⟩

/-- Fetcher whose upstream GET fails with 404. -/
def f404 : Fetcher := ⟨200, some (str "1000"), 404, []⟩

/-- Fetcher serving a 206 with a 100-byte body behind a 1000-byte resource. -/
def f206 : Fetcher := ⟨200, some (str "1000"), 206, zeros 100⟩

/-- Specification order used to describe the eviction scan: the accumulator
holds a candidate at least as evictable as the entry p (strictly smaller
accessCount, or equal accessCount and no-newer lastAccessed). The initial
accumulator (smallestAccess Infinity) is below nothing. -/
def accLe {α : Type} (acc : ScanAcc) (p : List Char × Entry α) : Prop :=
  match acc.smallestAccess with
  | none => False
  | some a => a < p.2.accessCount ∨ (a = p.2.accessCount ∧ acc.oldestTime ≤ p.2.lastAccessed)

/-! ## Lemmas about the association-list map -/

theorem zeros_length (n : Nat) : (zeros n).length = n := List.length_replicate ..

theorem lookupE_mapSet_self {α : Type} (k : List Char) (e : Entry α)
    (l : List (List Char × Entry α)) : lookupE k (mapSet k e l) = some e := by
  induction l with
  | nil => simp [mapSet, lookupE]
  | cons kv rest ih =>
      by_cases h : kv.1 = k
      · simp [mapSet, h, lookupE]
      · simp [mapSet, h, lookupE, ih]

theorem lookupE_eq_none {α : Type} (k : List Char) (l : List (List Char × Entry α))
    (h : k ∉ l.map Prod.fst) : lookupE k l = none := by
  induction l with
  | nil => rfl
  | cons kv rest ih =>
      simp only [List.map_cons, List.mem_cons, not_or] at h
      have hk : kv.1 ≠ k := fun he => h.1 he.symm
      rw [lookupE, if_neg hk]
      exact ih h.2

theorem lookupE_mem {α : Type} {k : List Char} {e : Entry α}
    {l : List (List Char × Entry α)} (h : lookupE k l = some e) : (k, e) ∈ l := by
  induction l with
  | nil => simp [lookupE] at h
  | cons kv rest ih =>
      by_cases hk : kv.1 = k
      · simp only [lookupE, if_pos hk, Option.some.injEq] at h
        refine List.mem_cons.mpr (Or.inl ?_)
        obtain ⟨k1, e1⟩ := kv
        cases hk
        cases h
        rfl
      · simp only [lookupE, if_neg hk] at h
        exact List.mem_cons_of_mem _ (ih h)

theorem eraseKey_sublist {α : Type} (k : List Char) (l : List (List Char × Entry α)) :
    (eraseKey k l).Sublist l := by
  induction l with
  | nil => simp [eraseKey]
  | cons kv rest ih =>
      by_cases h : kv.1 = k
      · rw [eraseKey, if_pos h]
        exact List.sublist_cons_self kv rest
      · rw [eraseKey, if_neg h]
        exact ih.cons₂ kv

theorem length_eraseKey {α : Type} (k : List Char) (l : List (List Char × Entry α))
    (h : k ∈ l.map Prod.fst) : (eraseKey k l).length + 1 = l.length := by
  induction l with
  | nil => simp at h
  | cons kv rest ih =>
      by_cases hk : kv.1 = k
      · simp [eraseKey, hk]
      · simp only [List.map_cons, List.mem_cons] at h
        rcases h with h | h
        · exact absurd h.symm hk
        · simp [eraseKey, hk, ih h]

theorem sumSizes_nil {α : Type} : sumSizes ([] : List (List Char × Entry α)) = 0 := rfl

theorem sumSizes_cons {α : Type} (kv : List Char × Entry α)
    (l : List (List Char × Entry α)) :
    sumSizes (kv :: l) = (kv.2.size : Int) + sumSizes l := by
  simp [sumSizes]

theorem sumSizes_nonneg {α : Type} (l : List (List Char × Entry α)) : 0 ≤ sumSizes l := by
  induction l with
  | nil => simp [sumSizes_nil]
  | cons kv rest ih => rw [sumSizes_cons]; positivity

theorem sumSizes_eraseKey {α : Type} {k : List Char} {e : Entry α}
    {l : List (List Char × Entry α)} (h : lookupE k l = some e) :
    sumSizes (eraseKey k l) = sumSizes l - e.size := by
  induction l with
  | nil => simp [lookupE] at h
  | cons kv rest ih =>
      by_cases hk : kv.1 = k
      · simp only [lookupE, if_pos hk, Option.some.injEq] at h
        simp [eraseKey, hk, sumSizes_cons, h]
      · simp only [lookupE, if_neg hk] at h
        simp [eraseKey, hk, sumSizes_cons, ih h]
        ring

theorem mem_map_fst_mapSet {α : Type} (a k : List Char) (e : Entry α)
    (l : List (List Char × Entry α)) :
    a ∈ (mapSet k e l).map Prod.fst ↔ a ∈ l.map Prod.fst ∨ a = k := by
  induction l with
  | nil => simp [mapSet]
  | cons kv rest ih =>
      by_cases hk : kv.1 = k
      · rw [mapSet, if_pos hk]
        simp only [List.map_cons, List.mem_cons]
        rw [hk]
        tauto
      · rw [mapSet, if_neg hk]
        simp only [List.map_cons, List.mem_cons, ih]
        tauto

theorem nodup_mapSet {α : Type} (k : List Char) (e : Entry α)
    (l : List (List Char × Entry α)) (h : (l.map Prod.fst).Nodup) :
    ((mapSet k e l).map Prod.fst).Nodup := by
  induction l with
  | nil => simp [mapSet]
  | cons kv rest ih =>
      simp only [List.map_cons, List.nodup_cons] at h
      by_cases hk : kv.1 = k
      · simp only [mapSet, if_pos hk, List.map_cons, List.nodup_cons]
        exact ⟨by rw [← hk]; exact h.1, h.2⟩
      · simp only [mapSet, if_neg hk, List.map_cons, List.nodup_cons]
        refine ⟨?_, ih h.2⟩
        rw [mem_map_fst_mapSet]
        rintro (hm | hm)
        · exact h.1 hm
        · exact hk hm

theorem lookupE_eraseKey_self {α : Type} (k : List Char)
    (l : List (List Char × Entry α)) (h : (l.map Prod.fst).Nodup) :
    lookupE k (eraseKey k l) = none := by
  induction l with
  | nil => rfl
  | cons kv rest ih =>
      simp only [List.map_cons, List.nodup_cons] at h
      by_cases hk : kv.1 = k
      · rw [eraseKey, if_pos hk]
        exact lookupE_eq_none k rest (by rw [← hk]; exact h.1)
      · rw [eraseKey, if_neg hk, lookupE, if_neg hk]
        exact ih h.2

theorem lookupE_eq_of_mem_nodup {α : Type} {k : List Char} {e : Entry α}
    {l : List (List Char × Entry α)} (hnd : (l.map Prod.fst).Nodup)
    (h : (k, e) ∈ l) : lookupE k l = some e := by
  induction l with
  | nil => simp at h
  | cons kv rest ih =>
      simp only [List.map_cons, List.nodup_cons] at hnd
      rcases List.mem_cons.mp h with h | h
      · rw [lookupE, if_pos (by rw [← h]), ← h]
      · have hk : kv.1 ≠ k := by
          intro he
          apply hnd.1
          rw [he]
          exact List.mem_map_of_mem Prod.fst h
        rw [lookupE, if_neg hk]
        exact ih hnd.2 h

theorem lookupE_isSome_of_mem {α : Type} {k : List Char} {l : List (List Char × Entry α)}
    (h : k ∈ l.map Prod.fst) : ∃ e, lookupE k l = some e := by
  induction l with
  | nil => simp at h
  | cons kv rest ih =>
      by_cases hk : kv.1 = k
      · exact ⟨kv.2, by rw [lookupE, if_pos hk]⟩
      · rw [List.map_cons, List.mem_cons] at h
        rcases h with h | h
        · exact absurd h.symm hk
        · obtain ⟨e, he⟩ := ih h
          exact ⟨e, by rw [lookupE, if_neg hk, he]⟩

theorem setSub_entries {α : Type} (c : CacheSt α) (k : List Char) :
    (setSub c k).entries = c.entries := by
  cases h : lookupE k c.entries <;> simp [setSub, h]

/-! ## Lemmas about the eviction scan and the eviction loop -/

theorem scanStep_cases {α : Type} (acc : ScanAcc) (kv : List Char × Entry α) :
    scanStep acc kv = acc ∨
    scanStep acc kv = ⟨kv.1, kv.2.lastAccessed, some kv.2.accessCount⟩ := by
  rw [scanStep]
  split
  · exact Or.inr rfl
  · exact Or.inl rfl

theorem scanStep_accLe_self {α : Type} (acc : ScanAcc) (kv : List Char × Entry α) :
    accLe (scanStep acc kv) kv := by
  obtain ⟨ok, ot, sa⟩ := acc
  rw [scanStep]
  split
  · exact Or.inr ⟨rfl, le_refl _⟩
  · rename_i h
    cases sa with
    | none => exact absurd (Or.inl trivial) h
    | some a =>
        push_neg at h
        simp only [accLt, accEq] at h
        simp only [accLe]
        omega

theorem scanStep_accLe_mono {α : Type} (acc : ScanAcc) (kv q : List Char × Entry α)
    (hq : accLe acc q) : accLe (scanStep acc kv) q := by
  obtain ⟨ok, ot, sa⟩ := acc
  cases sa with
  | none => exact absurd hq (by simp [accLe])
  | some a =>
      rw [scanStep]
      split
      · rename_i h
        simp only [accLt, accEq] at h
        simp only [accLe] at hq ⊢
        omega
      · exact hq

theorem foldl_scanStep_spec {α : Type} (l : List (List Char × Entry α)) :
    ∀ acc : ScanAcc,
      (l.foldl scanStep acc = acc ∨
        ∃ kv ∈ l, l.foldl scanStep acc = ⟨kv.1, kv.2.lastAccessed, some kv.2.accessCount⟩) ∧
      (∀ p ∈ l, accLe (l.foldl scanStep acc) p) ∧
      (∀ q : List Char × Entry α, accLe acc q → accLe (l.foldl scanStep acc) q) := by
  induction l with
  | nil =>
      intro acc
      refine ⟨Or.inl rfl, ?_, fun q hq => hq⟩
      intro p hp
      simp at hp
  | cons kv rest ih =>
      intro acc
      rw [List.foldl_cons]
      obtain ⟨ih1, ih2, ih3⟩ := ih (scanStep acc kv)
      refine ⟨?_, ?_, ?_⟩
      · rcases ih1 with h | ⟨kv', hkv', hres⟩
        · rcases scanStep_cases acc kv with hs | hs
          · exact Or.inl (h.trans hs)
          · exact Or.inr ⟨kv, List.mem_cons_self kv rest, h.trans hs⟩
        · exact Or.inr ⟨kv', List.mem_cons_of_mem _ hkv', hres⟩
      · intro p hp
        rcases List.mem_cons.mp hp with hp | hp
        · subst hp
          exact ih3 p (scanStep_accLe_self acc p)
        · exact ih2 p hp
      · intro q hq
        exact ih3 q (scanStep_accLe_mono acc kv q hq)

theorem evictScan_spec {α : Type} (now : Int) (l : List (List Char × Entry α))
    (hne : l ≠ []) :
    ∃ kv ∈ l, evictScan now l = ⟨kv.1, kv.2.lastAccessed, some kv.2.accessCount⟩ ∧
      ∀ p ∈ l, kv.2.accessCount < p.2.accessCount ∨
        (kv.2.accessCount = p.2.accessCount ∧ kv.2.lastAccessed ≤ p.2.lastAccessed) := by
  obtain ⟨h1, h2, _⟩ := foldl_scanStep_spec l (⟨[], now, none⟩ : ScanAcc)
  rcases h1 with h | ⟨kv, hkv, hres⟩
  · obtain ⟨p, hp⟩ := List.exists_mem_of_ne_nil l hne
    have hle := h2 p hp
    rw [h] at hle
    exact absurd hle (by simp [accLe])
  · refine ⟨kv, hkv, hres, ?_⟩
    intro p hp
    have hle := h2 p hp
    rw [hres] at hle
    simpa [accLe] using hle

theorem evictLRU_of_nonempty {α : Type} (now : Int) (c : CacheSt α)
    (hne : c.entries ≠ [])
    (hkeys : ∀ kv ∈ c.entries, kv.1 ≠ ([] : List Char)) :
    ∃ k e, lookupE k c.entries = some e ∧ k ∈ c.entries.map Prod.fst ∧
      evictLRU now c = ⟨eraseKey k c.entries, c.currentSize - e.size⟩ := by
  obtain ⟨kv, hkv, hres, _⟩ := evictScan_spec now c.entries hne
  have hkey : kv.1 ≠ [] := hkeys kv hkv
  have hmem : kv.1 ∈ c.entries.map Prod.fst := List.mem_map_of_mem Prod.fst hkv
  obtain ⟨e, he⟩ := lookupE_isSome_of_mem hmem
  refine ⟨kv.1, e, he, hmem, ?_⟩
  simp only [evictLRU, hres, if_neg hkey, he]

theorem evictLRU_entries_sublist {α : Type} (now : Int) (c : CacheSt α) :
    (evictLRU now c).entries.Sublist c.entries := by
  simp only [evictLRU]
  split
  · exact List.Sublist.refl _
  · split
    · exact eraseKey_sublist _ _
    · exact List.Sublist.refl _

theorem evictLRU_length {α : Type} (now : Int) (c : CacheSt α)
    (hne : c.entries ≠ [])
    (hkeys : ∀ kv ∈ c.entries, kv.1 ≠ ([] : List Char)) :
    (evictLRU now c).entries.length < c.entries.length := by
  obtain ⟨k, e, _, hmem, heq⟩ := evictLRU_of_nonempty now c hne hkeys
  rw [heq]
  show (eraseKey k c.entries).length < c.entries.length
  have := length_eraseKey k c.entries hmem
  omega

theorem evictLoop_terminates {α : Type} (now : Int) (size : Nat) :
    ∀ (fuel : Nat) (c : CacheSt α), (∀ kv ∈ c.entries, kv.1 ≠ ([] : List Char)) →
      c.entries.length < fuel → ∃ c', evictLoop now size fuel c = some c' := by
  intro fuel
  induction fuel with
  | zero => exact fun c _ hl => absurd hl (Nat.not_lt_zero _)
  | succ n ihn =>
      intro c hk hl
      rw [evictLoop]
      split
      · rename_i hcond
        have hne : c.entries ≠ [] := by
          intro h
          rw [h] at hcond
          simp at hcond
        have hlt := evictLRU_length now c hne hk
        exact ihn (evictLRU now c)
          (fun kv hkv => hk kv ((evictLRU_entries_sublist now c).subset hkv))
          (by omega)
      · exact ⟨c, rfl⟩

theorem evictLoop_nodup {α : Type} (now : Int) (size : Nat) :
    ∀ (fuel : Nat) (c c' : CacheSt α), evictLoop now size fuel c = some c' →
      (c.entries.map Prod.fst).Nodup → (c'.entries.map Prod.fst).Nodup := by
  intro fuel
  induction fuel with
  | zero =>
      intro c c' h hnd
      rw [evictLoop] at h
      split at h
      · simp at h
      · cases h
        exact hnd
  | succ n ihn =>
      intro c c' h hnd
      rw [evictLoop] at h
      split at h
      · exact ihn (evictLRU now c) c' h
          (hnd.sublist ((evictLRU_entries_sublist now c).map Prod.fst))
      · cases h
        exact hnd

theorem evictLoop_empties {α : Type} (now : Int) (size : Nat)
    (hover : maxSize < (size : Int)) :
    ∀ (fuel : Nat) (c : CacheSt α), (∀ kv ∈ c.entries, kv.1 ≠ ([] : List Char)) →
      c.currentSize = sumSizes c.entries → c.entries.length < fuel →
      evictLoop now size fuel c = some ⟨[], 0⟩ := by
  intro fuel
  induction fuel with
  | zero => exact fun c _ _ hl => absurd hl (Nat.not_lt_zero _)
  | succ n ihn =>
      intro c hk hsum hl
      rw [evictLoop]
      by_cases hne : c.entries = []
      · have hc : c = ⟨[], 0⟩ := by
          obtain ⟨ents, cur⟩ := c
          simp only at hne hsum
          subst hne
          rw [sumSizes_nil] at hsum
          rw [hsum]
        rw [hc]
        rw [if_neg (by simp)]
      · have hpos : 0 ≤ c.currentSize := hsum ▸ sumSizes_nonneg _
        have hlen : 0 < c.entries.length := by
          cases h : c.entries with
          | nil => exact absurd h hne
          | cons a b => simp
        rw [if_pos ⟨by omega, hlen⟩]
        obtain ⟨k, e, he, _, heq⟩ := evictLRU_of_nonempty now c hne hk
        have hlt := evictLRU_length now c hne hk
        apply ihn
        · exact fun kv hkv => hk kv ((evictLRU_entries_sublist now c).subset hkv)
        · rw [heq]
          simp only
          rw [sumSizes_eraseKey he, hsum]
        · omega

theorem setOp_exists {α : Type} (now : Int) (k : List Char) (stored : α) (size : Nat)
    (c : CacheSt α) (hkeys : ∀ kv ∈ c.entries, kv.1 ≠ ([] : List Char)) :
    ∃ c', setOp now k stored size c = some c' := by
  rw [setOp]
  obtain ⟨c2, h2⟩ := evictLoop_terminates now size ((setSub c k).entries.length + 1)
    (setSub c k) (by rw [setSub_entries]; exact hkeys) (by omega)
  exact ⟨_, by rw [h2]; rfl⟩

theorem setOp_lookup {α : Type} {now : Int} {k : List Char} {stored : α} {size : Nat}
    {c c' : CacheSt α} (h : setOp now k stored size c = some c') :
    lookupE k c'.entries = some ⟨stored, now, 1, now, size⟩ ∧
    ((c.entries.map Prod.fst).Nodup → (c'.entries.map Prod.fst).Nodup) := by
  rw [setOp] at h
  cases h2 : evictLoop now size ((setSub c k).entries.length + 1) (setSub c k) with
  | none =>
      rw [h2] at h
      simp at h
  | some c2 =>
      rw [h2] at h
      simp only [Option.map_some'] at h
      injection h with h
      subst h
      refine ⟨lookupE_mapSet_self k _ c2.entries, fun hnd => ?_⟩
      apply nodup_mapSet
      apply evictLoop_nodup now size _ _ _ h2
      rw [setSub_entries]
      exact hnd

/-! ## Lemmas about the range parser -/

theorem splitOnChar_ne_nil (sep : Char) (l : List Char) : splitOnChar sep l ≠ [] := by
  induction l with
  | nil => simp [splitOnChar]
  | cons c rest ih =>
      rw [splitOnChar]
      by_cases h : c = sep
      · simp [h]
      · rw [if_neg h]
        cases hs : splitOnChar sep rest with
        | nil => simp
        | cons hd tl => simp

theorem splitOnChar_not_mem (sep : Char) (l : List Char) (h : sep ∉ l) :
    splitOnChar sep l = [l] := by
  induction l with
  | nil => rfl
  | cons c rest ih =>
      rw [List.mem_cons, not_or] at h
      rw [splitOnChar, if_neg (fun hc => h.1 hc.symm), ih h.2]

theorem splitOnChar_append_sep (sep : Char) (s t : List Char) (h : sep ∉ s) :
    splitOnChar sep (s ++ sep :: t) = s :: splitOnChar sep t := by
  induction s with
  | nil => rw [List.nil_append, splitOnChar, if_pos rfl]
  | cons c rest ih =>
      rw [List.mem_cons, not_or] at h
      rw [List.cons_append, splitOnChar, if_neg (fun hc => h.1 hc.symm), ih h.2]

theorem two_le_splitOnChar_length (sep : Char) (s t : List Char) :
    2 ≤ (splitOnChar sep (s ++ sep :: t)).length := by
  induction s with
  | nil =>
      rw [List.nil_append, splitOnChar, if_pos rfl]
      cases hs : splitOnChar sep t with
      | nil => exact absurd hs (splitOnChar_ne_nil sep t)
      | cons hd tl => simp
  | cons c rest ih =>
      rw [List.cons_append, splitOnChar]
      by_cases h : c = sep
      · rw [if_pos h]
        cases hs : splitOnChar sep (rest ++ sep :: t) with
        | nil => exact absurd hs (splitOnChar_ne_nil sep _)
        | cons hd tl => simp
      · rw [if_neg h]
        cases hs : splitOnChar sep (rest ++ sep :: t) with
        | nil => exact absurd hs (splitOnChar_ne_nil sep _)
        | cons hd tl =>
            rw [hs] at ih
            simp only [List.length_cons] at ih ⊢
            omega

theorem jsTrim_eq_self (l : List Char) (h : ∀ c ∈ l, isWsChar c = false) : jsTrim l = l := by
  have h1 : l.dropWhile isWsChar = l := by
    cases l with
    | nil => rfl
    | cons c rest =>
        rw [List.dropWhile_cons, if_neg (by simp [h c (List.mem_cons_self c rest)])]
  rw [jsTrim, h1]
  have h2 : l.reverse.dropWhile isWsChar = l.reverse := by
    cases hr : l.reverse with
    | nil => rfl
    | cons c rest =>
        have hc : c ∈ l := by
          rw [← List.mem_reverse, hr]
          exact List.mem_cons_self c rest
        rw [List.dropWhile_cons, if_neg (by simp [h c hc])]
  rw [h2, List.reverse_reverse]

theorem takeWhile_all (p : Char → Bool) (l : List Char) (h : ∀ c ∈ l, p c = true) :
    l.takeWhile p = l := by
  induction l with
  | nil => rfl
  | cons c rest ih =>
      rw [List.takeWhile_cons, if_pos (h c (List.mem_cons_self c rest)),
        ih (fun x hx => h x (List.mem_cons_of_mem c hx))]

theorem digit_not_ws (c : Char) (h : isDigitChar c = true) : isWsChar c = false := by
  rw [isWsChar]
  apply decide_eq_false
  rintro (rfl | rfl | rfl | rfl) <;> revert h <;> decide

theorem digit_ne_dash (c : Char) (h : isDigitChar c = true) : c ≠ '-' := by
  rintro rfl
  revert h
  decide

theorem digit_ne_plus (c : Char) (h : isDigitChar c = true) : c ≠ '+' := by
  rintro rfl
  revert h
  decide

theorem digit_ne_comma (c : Char) (h : isDigitChar c = true) : c ≠ ',' := by
  rintro rfl
  revert h
  decide

theorem js_parseInt_digits (l : List Char) (hne : l ≠ [])
    (hd : ∀ c ∈ l, isDigitChar c = true) : js_parseInt l = some ((digitsVal l : Int)) := by
  cases l with
  | nil => exact absurd rfl hne
  | cons c rest =>
      have hc := hd c (List.mem_cons_self c rest)
      have hdw : (c :: rest).dropWhile isWsChar = c :: rest := by
        rw [List.dropWhile_cons, if_neg (by simp [digit_not_ws c hc])]
      have ht : (c :: rest).takeWhile isDigitChar = c :: rest :=
        takeWhile_all isDigitChar (c :: rest) hd
      simp only [js_parseInt, hdw, if_neg (digit_ne_dash c hc), if_neg (digit_ne_plus c hc),
        ht, if_neg (List.cons_ne_nil c rest)]

theorem bytes_isPrefixOf (rest : List Char) :
    (str "bytes=").isPrefixOf (str "bytes=" ++ rest) = true :=
  List.isPrefixOf_iff_prefix.mpr (List.prefix_append _ _)

theorem drop6_bytes (rest : List Char) : (str "bytes=" ++ rest).drop 6 = rest := by
  have h6 : (6 : Nat) = (str "bytes=").length := rfl
  rw [h6, List.drop_left]

theorem rangeValidate_some {st et cl : JSNum} {r : RangeReq}
    (h : rangeValidate st et cl = some r) :
    r = ⟨st, et, cl⟩ ∧ ¬ jlt st (some 0) ∧ ¬ jge et cl ∧ ¬ jgt st et := by
  rw [rangeValidate] at h
  split at h
  · simp at h
  · rename_i hc
    push_neg at hc
    injection h with h
    exact ⟨h.symm, hc.1, hc.2.1, hc.2.2⟩

/-- Evaluation of parseRangeHeader on a well-formed payload (no comma, no
whitespace): the header passes the prefix, multi-range and trim steps and
dispatches on the dash split of the payload. -/
theorem parseRangeHeader_payload (x : List Char) (L : JSNum)
    (hx : ',' ∉ x) (hws : ∀ c ∈ x, isWsChar c = false) :
    parseRangeHeader (str "bytes=" ++ x) L =
      (if (first2 (splitOnChar '-' x)).1 = [] then
        match (match (first2 (splitOnChar '-' x)).2 with
               | some es => js_parseInt es
               | none => none) with
        | none => none
        | some sfx =>
            rangeValidate (jmax0 (jsub L (some sfx))) (jsub L (some 1)) L
      else if (first2 (splitOnChar '-' x)).2 = some [] then
        match js_parseInt (first2 (splitOnChar '-' x)).1 with
        | none => none
        | some s => rangeValidate (some s) (jsub L (some 1)) L
      else
        match js_parseInt (first2 (splitOnChar '-' x)).1,
          (match (first2 (splitOnChar '-' x)).2 with
           | some es => js_parseInt es
           | none => none) with
        | some s, some e => rangeValidate (some s) (some e) L
        | _, _ => none) := by
  have h1 : ¬ ¬ ((str "bytes=").isPrefixOf (str "bytes=" ++ x) = true) := by
    simp [bytes_isPrefixOf x]
  have h2 : ¬ (([x] : List (List Char)).length ≠ 1) := by simp
  rw [parseRangeHeader, if_neg h1]
  simp only [drop6_bytes, splitOnChar_not_mem ',' x hx, jsTrim_eq_self x hws, List.headD_cons]
  rw [if_neg h2]

/-! ## Lemmas about the proxy handler -/

theorem evictLoop_no_evict {α : Type} (now : Int) (size : Nat) (fuel : Nat) (c : CacheSt α)
    (h : ¬ (maxSize < c.currentSize + (size : Int) ∧ 0 < c.entries.length)) :
    evictLoop now size (fuel + 1) c = some c := by
  rw [evictLoop, if_neg h]

theorem setOp_no_evict {α : Type} (now : Int) (k : List Char) (stored : α) (size : Nat)
    (c : CacheSt α)
    (h : ¬ (maxSize < (setSub c k).currentSize + (size : Int) ∧
        0 < (setSub c k).entries.length)) :
    setOp now k stored size c =
      some ⟨mapSet k ⟨stored, now, 1, now, size⟩ (setSub c k).entries,
        (setSub c k).currentSize + size⟩ := by
  rw [setOp, evictLoop_no_evict now size _ (setSub c k) h]
  rfl

theorem GET2_ranged (parseURL : List Char → Option URLParts) (f : Fetcher) (now : Int)
    (url rh : List Char) (r0 : RangeReq) (c0 : CacheSt (List Nat))
    (hval : validateUrl parseURL url = true)
    (hhead : respOk f.headStatus = true)
    (hcl : js_parseInt (f.headContentLength.getD (str "0")) ≠ some 0)
    (hparse : parseRangeHeader rh (js_parseInt (f.headContentLength.getD (str "0"))) =
      some r0) :
    GET2 parseURL f now ⟨some url, some rh⟩ c0 =
      proxyMiss f now url
        (some (optimizeRange r0 (js_parseInt (f.headContentLength.getD (str "0")))))
        c0 1 0 := by
  have hv2 : ¬ ¬ (validateUrl parseURL url = true) := by simp [hval]
  have hh2 : ¬ ¬ (respOk f.headStatus = true) := by simp [hhead]
  simp only [GET2, if_neg hv2, if_neg hh2, if_neg hcl, hparse, proxyServe]

theorem proxyMiss_ranged_ok (f : Fetcher) (now : Int) (url : List Char) (r : RangeReq)
    (c1 c2 : CacheSt (List Nat)) (hc cg : Nat)
    (hok : respOk f.getStatus = true)
    (hlen1 : 100 ≤ f.getBody.length)
    (hset : set2 now (generateKey url (some r)) f.getBody c1 = some c2) :
    ∃ st, proxyMiss f now url (some r) c1 hc cg = some ⟨st, c2, hc, 1, cg, 1⟩ := by
  rw [proxyMiss]
  rw [if_neg (by simp [hok])]
  rw [if_neg (by omega)]
  rw [if_neg (by rintro ⟨h1, _⟩; omega)]
  rw [if_neg (by rintro ⟨h1, _, _⟩; exact Option.some_ne_none r h1)]
  simp only [hset]
  by_cases hst : f.getStatus = 206
  · exact ⟨206, by rw [if_pos ⟨by simp, hst⟩]⟩
  · exact ⟨f.getStatus, by rw [if_neg (fun hh => hst hh.2)]⟩

/-! ## Claim theorems -/

/-- C6: whenever the cache must evict during set, evictLRU removes exactly
the resident entry with the smallest accessCount, and among entries tied at
that smallest accessCount the one with the oldest lastAccessed (LFU with LRU
tie-break). Stated for every cache state whose Map has nonempty, pairwise
distinct keys (invariants of the JS Map under the handlers' key schemes). -/
theorem c6_evict_lfu_lru {α : Type} (now : Int) (c : CacheSt α)
    (hne : c.entries ≠ [])
    (hkeys : ∀ kv ∈ c.entries, kv.1 ≠ ([] : List Char))
    (hnd : (c.entries.map Prod.fst).Nodup) :
    ∃ k e, (k, e) ∈ c.entries ∧
      evictLRU now c = ⟨eraseKey k c.entries, c.currentSize - e.size⟩ ∧
      ∀ p ∈ c.entries, e.accessCount < p.2.accessCount ∨
        (e.accessCount = p.2.accessCount ∧ e.lastAccessed ≤ p.2.lastAccessed) := by
  obtain ⟨kv, hkv, hres, hmin⟩ := evictScan_spec now c.entries hne
  have hkey : kv.1 ≠ [] := hkeys kv hkv
  have hlook : lookupE kv.1 c.entries = some kv.2 := lookupE_eq_of_mem_nodup hnd hkv
  refine ⟨kv.1, kv.2, hkv, ?_, hmin⟩
  simp only [evictLRU, hres, if_neg hkey, hlook]

/-- Witness for C6 at a concrete two-entry cache: key b has the smaller
accessCount and is selected despite key a being less recently used. -/
theorem c6_evict_lfu_lru_witness :
    ∃ k e, (k, e) ∈ (⟨[(['a'], ⟨([] : List Nat), 0, 2, 5, 0⟩),
        (['b'], ⟨[], 0, 1, 9, 0⟩)], 0⟩ : CacheSt (List Nat)).entries ∧
      evictLRU 10 ⟨[(['a'], ⟨([] : List Nat), 0, 2, 5, 0⟩), (['b'], ⟨[], 0, 1, 9, 0⟩)], 0⟩ =
        ⟨eraseKey k [(['a'], ⟨([] : List Nat), 0, 2, 5, 0⟩), (['b'], ⟨[], 0, 1, 9, 0⟩)],
          0 - e.size⟩ ∧
      ∀ p ∈ (⟨[(['a'], ⟨([] : List Nat), 0, 2, 5, 0⟩),
          (['b'], ⟨[], 0, 1, 9, 0⟩)], 0⟩ : CacheSt (List Nat)).entries,
        e.accessCount < p.2.accessCount ∨
          (e.accessCount = p.2.accessCount ∧ e.lastAccessed ≤ p.2.lastAccessed) :=
  c6_evict_lfu_lru 10 ⟨[(['a'], ⟨[], 0, 2, 5, 0⟩), (['b'], ⟨[], 0, 1, 9, 0⟩)], 0⟩
    (by decide) (by decide) (by decide)

/-- C7: after set(k, buf) at time tset, a get(k) performed at any time
strictly later than tset + ttl returns null, removes the entry from the map
and decreases currentSize by the entry's size. Stated for the per-book
PDFChunkCache (the global PDFCache additionally sweeps every other expired
entry in its cleanup pass before the lookup). -/
theorem c7_ttl_expiry (tset tget : Int) (k : List Char) (d : List Nat)
    (c c1 : CacheSt (List Nat))
    (hnd : (c.entries.map Prod.fst).Nodup)
    (hs : set1 tset k d c = some c1)
    (hlate : tset + ttl < tget) :
    (get1 tget k c1).1 = none ∧
    lookupE k (get1 tget k c1).2.entries = none ∧
    (get1 tget k c1).2.currentSize = c1.currentSize - (d.length : Int) := by
  obtain ⟨hlook, hndp⟩ := setOp_lookup hs
  have hnd1 := hndp hnd
  have hexp : isExpired tget (⟨d, tset, 1, tset, d.length⟩ : Entry (List Nat)) = true := by
    simp only [isExpired, gt_iff_lt, decide_eq_true_eq]
    omega
  have hget : get1 tget k c1 =
      (none, ⟨eraseKey k c1.entries, c1.currentSize - (d.length : Int)⟩) := by
    rw [get1]
    simp [getOp, hlook, hexp]
  rw [hget]
  exact ⟨rfl, lookupE_eraseKey_self k c1.entries hnd1, rfl⟩

/-- Witness for C7: a 3-byte buffer set at time 0 into the empty cache and
read back at time 300001 (just past the 5-minute ttl). -/
theorem c7_ttl_expiry_witness :
    (get1 300001 ['k'] (⟨[(['k'], ⟨[1, 2, 3], 0, 1, 0, 3⟩)], 3⟩ : CacheSt (List Nat))).1 =
      none ∧
    lookupE ['k']
      (get1 300001 ['k']
        (⟨[(['k'], ⟨[1, 2, 3], 0, 1, 0, 3⟩)], 3⟩ : CacheSt (List Nat))).2.entries = none ∧
    (get1 300001 ['k']
      (⟨[(['k'], ⟨[1, 2, 3], 0, 1, 0, 3⟩)], 3⟩ : CacheSt (List Nat))).2.currentSize =
      (⟨[(['k'], ⟨[1, 2, 3], 0, 1, 0, 3⟩)], 3⟩ : CacheSt (List Nat)).currentSize -
        (([1, 2, 3] : List Nat).length : Int) :=
  c7_ttl_expiry 0 300001 ['k'] [1, 2, 3] ⟨[], 0⟩ ⟨[(['k'], ⟨[1, 2, 3], 0, 1, 0, 3⟩)], 3⟩
    (by decide) (by decide) (by decide)

/-- C1 (refuted by the code): the spec invariant says currentSize always
equals the sum of resident entry sizes and stays at most maxSize after set.
On a well-formed 50 MiB state, set on a key that already has a resident
entry first subtracts the old size without removing the entry, the eviction
loop then evicts that same key and subtracts its size a second time, so the
loop stops early: afterwards currentSize (31457280) differs from the true
resident sum (62914560), which moreover exceeds maxSize although the
inserted buffer (40 MiB) is itself under maxSize. -/
theorem c1_currentSize_invariant_bug :
    c1pre.currentSize = sumSizes c1pre.entries ∧
    ((zeros 41943040).length : Int) ≤ maxSize ∧
    ∃ c', set1 0 ['a'] (zeros 41943040) c1pre = some c' ∧
      c'.currentSize ≠ sumSizes c'.entries ∧ maxSize < sumSizes c'.entries := by
  refine ⟨by simp [c1pre, sumSizes_cons, sumSizes_nil], by rw [zeros_length]; decide, ?_⟩
  refine ⟨⟨[(['b'], ⟨zeros 20971520, 0, 2, 0, 20971520⟩),
      (['a'], ⟨zeros 41943040, 0, 1, 0, 41943040⟩)], 31457280⟩, ?_, ?_, ?_⟩
  · rw [set1, zeros_length]
    rfl
  · rw [sumSizes_cons, sumSizes_cons, sumSizes_nil]
    decide
  · rw [sumSizes_cons, sumSizes_cons, sumSizes_nil]
    decide

/-- C8 (refuted as stated): set with a buffer above maxSize is supposed to
evict everything and then insert, leaving currentSize above the cap. On a
well-formed state where the oversized set overwrites an existing key, the
double subtraction of the old size makes the loop stop early: key b stays
resident and the final currentSize does not exceed maxSize. -/
theorem c8_oversized_cex :
    c8pre.currentSize = sumSizes c8pre.entries ∧
    maxSize < ((zeros 52428801).length : Int) ∧
    set1 0 ['a'] (zeros 52428801) c8pre =
      some ⟨[(['b'], ⟨zeros 1, 0, 2, 0, 1⟩),
             (['a'], ⟨zeros 52428801, 0, 1, 0, 52428801⟩)], 52428800⟩ ∧
    lookupE ['b'] [(['b'], ⟨zeros 1, 0, 2, 0, 1⟩),
        (['a'], ⟨zeros 52428801, 0, 1, 0, 52428801⟩)] = some ⟨zeros 1, 0, 2, 0, 1⟩ ∧
    ¬ maxSize < (52428800 : Int) := by
  refine ⟨by simp [c8pre, sumSizes_cons, sumSizes_nil], by rw [zeros_length]; decide,
    ?_, rfl, by decide⟩
  rw [set1, zeros_length]
  rfl

/-- C8 (amended): an oversized set always terminates without crashing
(whenever the resident keys are nonempty strings, which the handlers' key
schemes guarantee); when the target key is fresh it empties the cache and
inserts the oversized entry anyway, leaving currentSize = the buffer size
above the nominal maxSize cap; when the target key overwrites a resident
entry the double size subtraction can stop the eviction loop early, leaving
other entries resident and currentSize at or below the cap. -/
theorem c8_oversized_terminates (now : Int) (k : List Char) (d : List Nat)
    (c : CacheSt (List Nat))
    (hkeys : ∀ kv ∈ c.entries, kv.1 ≠ ([] : List Char))
    (hover : maxSize < (d.length : Int)) :
    (∃ c', set1 now k d c = some c') ∧
    (lookupE k c.entries = none → c.currentSize = sumSizes c.entries →
      set1 now k d c = some ⟨[(k, ⟨d, now, 1, now, d.length⟩)], (d.length : Int)⟩ ∧
      maxSize < (d.length : Int)) := by
  constructor
  · exact setOp_exists now k d d.length c hkeys
  · intro hfresh hsum
    refine ⟨?_, hover⟩
    have hsub : setSub c k = c := by rw [setSub, hfresh]
    rw [set1, setOp, hsub,
      evictLoop_empties now d.length hover (c.entries.length + 1) c hkeys hsum (by omega)]
    simp [mapSet]

/-- Witness for C8 at a concrete input: a buffer one byte over the cap set
under a fresh key into a well-formed one-entry cache. -/
theorem c8_oversized_terminates_witness :
    (∃ c', set1 0 ['k'] (zeros 52428801) ⟨[(['a'], ⟨zeros 1, 0, 1, 0, 1⟩)], 1⟩ = some c') ∧
    (lookupE ['k'] [(['a'], ⟨zeros 1, 0, 1, 0, 1⟩)] = none →
      (1 : Int) = sumSizes [(['a'], ⟨zeros 1, 0, 1, 0, 1⟩)] →
      set1 0 ['k'] (zeros 52428801) ⟨[(['a'], ⟨zeros 1, 0, 1, 0, 1⟩)], 1⟩ =
        some ⟨[(['k'], ⟨zeros 52428801, 0, 1, 0, (zeros 52428801).length⟩)],
          ((zeros 52428801).length : Int)⟩ ∧
      maxSize < ((zeros 52428801).length : Int)) :=
  c8_oversized_terminates 0 ['k'] (zeros 52428801) ⟨[(['a'], ⟨zeros 1, 0, 1, 0, 1⟩)], 1⟩
    (by decide) (by rw [zeros_length]; decide)

/-- Reading the freshly appended buffer of the heap model. -/
theorem readBuf_append_self (h : Heap) (b : List Nat) : readBuf (h ++ [b]) h.length = b := by
  induction h with
  | nil => rfl
  | cons x rest ih =>
      rw [List.cons_append]
      show readBuf (rest ++ [b]) rest.length = b
      exact ih

/-- Writing one heap cell leaves every other cell unchanged. -/
theorem readBuf_write_ne (h : Heap) (a i : Nat) (b : List Nat) (hne : a ≠ i) :
    readBuf (writeBuf h a b) i = readBuf h i := by
  simp [readBuf, writeBuf, List.getD_eq_getElem?_getD, List.getElem?_set_ne hne]

/-- C2 (refuted as stated): get returns the stored ArrayBuffer reference, not
a copy. After set of buffer [1,2,3] under key k, get hands back the address
of the cache's own copy; overwriting that buffer in place makes a later
get(k) see [9,9,9] instead of [1,2,3]. -/
theorem c2_get_reference_cex :
    hset 0 ['k'] 0 [[1, 2, 3]] ⟨[], 0⟩ =
      some ([[1, 2, 3], [1, 2, 3]], ⟨[(['k'], ⟨1, 0, 1, 0, 3⟩)], 3⟩) ∧
    (hget 0 ['k'] ⟨[(['k'], ⟨1, 0, 1, 0, 3⟩)], 3⟩).1 = some 1 ∧
    readBuf [[1, 2, 3], [1, 2, 3]] 1 = [1, 2, 3] ∧
    (hget 5 ['k'] (hget 0 ['k'] ⟨[(['k'], ⟨1, 0, 1, 0, 3⟩)], 3⟩).2).1 = some 1 ∧
    readBuf (writeBuf [[1, 2, 3], [1, 2, 3]] 1 [9, 9, 9]) 1 = [9, 9, 9] := by decide

/-- C2 (amended): the buffer passed to set is defensively copied on
insertion, so mutating the caller's buffer after set never changes the bytes
a later get observes; get however returns the stored reference itself (the
address of the cache's buffer), not a copy. -/
theorem c2_set_copy_get_reference (now now2 : Int) (k : List Char) (a : Nat)
    (h h2 : Heap) (c c2 : CacheSt Nat)
    (hs : hset now k a h c = some (h2, c2))
    (hfresh : now2 - now ≤ ttl)
    (ha : a < h.length) :
    (hget now2 k c2).1 = some h.length ∧
    readBuf h2 h.length = readBuf h a ∧
    ∀ b2, readBuf (writeBuf h2 a b2) h.length = readBuf h a := by
  rw [hset] at hs
  cases hl : setOp now k h.length (readBuf h a).length c with
  | none =>
      rw [hl] at hs
      simp at hs
  | some c2' =>
      rw [hl] at hs
      simp only [Option.map_some'] at hs
      injection hs with hs
      rw [Prod.mk.injEq] at hs
      obtain ⟨hh, hc⟩ := hs
      subst hh
      subst hc
      obtain ⟨hlook, _⟩ := setOp_lookup hl
      have hexp : isExpired now2 (⟨h.length, now, 1, now, (readBuf h a).length⟩ : Entry Nat)
          = false := by
        simp only [isExpired, gt_iff_lt, decide_eq_false_iff_not, not_lt]
        omega
      refine ⟨?_, readBuf_append_self h _, fun b2 => ?_⟩
      · rw [hget]
        simp [getOp, hlook, hexp]
      · rw [readBuf_write_ne _ _ _ _ (Nat.ne_of_lt ha), readBuf_append_self h _]

/-- C3 (refuted as stated): a range component with trailing non-digit
characters is not rejected: parseInt stops at the junk, so bytes=12abc-20
against totalLength 100 parses as the range 12-20 instead of yielding null. -/
theorem c3_trailing_junk_cex :
    parseRangeHeader (str "bytes=12abc-20") (some 100) =
      some ⟨some 12, some 20, some 100⟩ := by decide

/-- C3 (amended): parseRange returns null for headers not starting with the
literal bytes= prefix, for multi-range headers (any comma in the payload),
and whenever a component has no parseable leading integer or validation
fails; dually, every successful parse against a positive totalLength L
satisfies 0 <= start <= end < L with total = L. Components consisting of an
integer prefix followed by junk (bytes=12abc-20) are accepted as their
parseInt value rather than rejected. -/
theorem c3_malformed_null :
    (∀ (hdr : List Char) (L : JSNum),
      ¬ ((str "bytes=").isPrefixOf hdr = true) → parseRangeHeader hdr L = none) ∧
    (∀ (s t : List Char) (L : JSNum),
      parseRangeHeader (str "bytes=" ++ (s ++ ',' :: t)) L = none) ∧
    (∀ (hdr : List Char) (L : Int) (r : RangeReq),
      0 < L → parseRangeHeader hdr (some L) = some r →
      ∃ s e : Int, r = ⟨some s, some e, some L⟩ ∧ 0 ≤ s ∧ s ≤ e ∧ e < L) := by
  refine ⟨?_, ?_, ?_⟩
  · intro hdr L h
    rw [parseRangeHeader, if_pos h]
  · intro s t L
    have h1 : ¬ ¬ ((str "bytes=").isPrefixOf (str "bytes=" ++ (s ++ ',' :: t)) = true) := by
      simp [bytes_isPrefixOf]
    have h2 : (splitOnChar ',' (s ++ ',' :: t)).length ≠ 1 := by
      have := two_le_splitOnChar_length ',' s t
      omega
    simp only [parseRangeHeader, drop6_bytes, if_neg h1, if_pos h2]
  · intro hdr L r hL hp
    simp only [parseRangeHeader] at hp
    split at hp
    · exact absurd hp (by simp)
    split at hp
    · exact absurd hp (by simp)
    split at hp
    · -- suffix branch -K
      split at hp
      · exact absurd hp (by simp)
      · rename_i sfx hsfx
        obtain ⟨hr, _, hv2, hv3⟩ := rangeValidate_some hp
        refine ⟨max 0 (L - sfx), L - 1, ?_, le_max_left 0 _, ?_, ?_⟩
        · rw [hr]
          simp [jmax0, jsub]
        · simp only [jgt, jsub, jmax0] at hv3
          omega
        · omega
    · split at hp
      · -- open branch N-
        split at hp
        · exact absurd hp (by simp)
        · rename_i s hs
          obtain ⟨hr, hv1, _, hv3⟩ := rangeValidate_some hp
          refine ⟨s, L - 1, ?_, ?_, ?_, ?_⟩
          · rw [hr]
            simp [jsub]
          · simp only [jlt] at hv1
            omega
          · simp only [jgt, jsub] at hv3
            omega
          · omega
      · -- explicit branch N-M
        split at hp
        · rename_i s e hs he
          obtain ⟨hr, hv1, hv2, hv3⟩ := rangeValidate_some hp
          refine ⟨s, e, ?_, ?_, ?_, ?_⟩
          · rw [hr]
          · simp only [jlt] at hv1
            omega
          · simp only [jgt] at hv3
            omega
          · simp only [jge] at hv2
            omega
        all_goals simp at hp

/-- Witness for C3 (amended) at concrete inputs: a non-bytes header, a
multi-range header, and the characterization applied to bytes=2-5 against
totalLength 10. -/
theorem c3_malformed_null_witness :
    parseRangeHeader (str "xbytes=1-2") (some 10) = none ∧
    parseRangeHeader (str "bytes=" ++ (str "0-1" ++ ',' :: str "3-4")) (some 10) = none ∧
    (∃ s e : Int, (⟨some 2, some 5, some 10⟩ : RangeReq) = ⟨some s, some e, some 10⟩ ∧
      0 ≤ s ∧ s ≤ e ∧ e < 10) :=
  ⟨c3_malformed_null.1 (str "xbytes=1-2") (some 10) (by decide),
   c3_malformed_null.2.1 (str "0-1") (str "3-4") (some 10),
   c3_malformed_null.2.2 (str "bytes=2-5") 10 ⟨some 2, some 5, some 10⟩ (by decide)
     (by decide)⟩

/-- C5: parseRange maps each valid single-range form to the RFC 7233
interval: bytes=N-M with 0 <= N <= M < totalLength yields start N, end M,
total totalLength; bytes=-K with 0 < K <= totalLength yields start
totalLength-K and end totalLength-1; bytes=N- with 0 <= N < totalLength
yields start N and end totalLength-1. N, M, K range over all decimal digit
strings, valued by digitsVal. -/
theorem c5_valid_range_forms (L : Int) (a b kk : List Char)
    (_hL : 0 < L)
    (ha : a ≠ []) (had : ∀ c ∈ a, isDigitChar c = true)
    (hb : b ≠ []) (hbd : ∀ c ∈ b, isDigitChar c = true)
    (hk : kk ≠ []) (hkd : ∀ c ∈ kk, isDigitChar c = true) :
    ((digitsVal a : Int) ≤ (digitsVal b : Int) → (digitsVal b : Int) < L →
      parseRangeHeader (str "bytes=" ++ (a ++ '-' :: b)) (some L) =
        some ⟨some (digitsVal a), some (digitsVal b), some L⟩) ∧
    (0 < (digitsVal kk : Int) → (digitsVal kk : Int) ≤ L →
      parseRangeHeader (str "bytes=" ++ ('-' :: kk)) (some L) =
        some ⟨some (L - (digitsVal kk : Int)), some (L - 1), some L⟩) ∧
    ((digitsVal a : Int) < L →
      parseRangeHeader (str "bytes=" ++ (a ++ ['-'])) (some L) =
        some ⟨some (digitsVal a), some (L - 1), some L⟩) := by
  refine ⟨?_, ?_, ?_⟩
  · intro h1 h2
    have hx : ',' ∉ a ++ '-' :: b := by
      intro hc
      rcases List.mem_append.mp hc with hc | hc
      · exact digit_ne_comma ',' (had ',' hc) rfl
      · rcases List.mem_cons.mp hc with h | hc
        · exact absurd h (by decide)
        · exact digit_ne_comma ',' (hbd ',' hc) rfl
    have hws : ∀ c ∈ a ++ '-' :: b, isWsChar c = false := by
      intro c hc
      rcases List.mem_append.mp hc with hc | hc
      · exact digit_not_ws c (had c hc)
      · rcases List.mem_cons.mp hc with rfl | hc
        · decide
        · exact digit_not_ws c (hbd c hc)
    have hsplit : splitOnChar '-' (a ++ '-' :: b) = [a, b] := by
      rw [splitOnChar_append_sep '-' a b (fun hm => digit_ne_dash '-' (had '-' hm) rfl),
        splitOnChar_not_mem '-' b (fun hm => digit_ne_dash '-' (hbd '-' hm) rfl)]
    have hb2 : ¬ ((first2 [a, b]).2 = some []) := by
      simp only [first2]
      simp [hb]
    rw [parseRangeHeader_payload _ _ hx hws, hsplit]
    rw [if_neg (by simp only [first2]; exact ha), if_neg hb2]
    simp only [first2]
    rw [js_parseInt_digits a ha had, js_parseInt_digits b hb hbd]
    show rangeValidate (some (digitsVal a : Int)) (some (digitsVal b : Int)) (some L) = _
    rw [rangeValidate, if_neg (by simp only [jlt, jge, jgt]; omega)]
  · intro h1 h2
    have hx : ',' ∉ ('-' :: kk) := by
      intro hc
      rcases List.mem_cons.mp hc with h | hc
      · exact absurd h (by decide)
      · exact digit_ne_comma ',' (hkd ',' hc) rfl
    have hws : ∀ c ∈ '-' :: kk, isWsChar c = false := by
      intro c hc
      rcases List.mem_cons.mp hc with rfl | hc
      · decide
      · exact digit_not_ws c (hkd c hc)
    have hsplit : splitOnChar '-' ('-' :: kk) = [[], kk] := by
      rw [splitOnChar, if_pos rfl,
        splitOnChar_not_mem '-' kk (fun hm => digit_ne_dash '-' (hkd '-' hm) rfl)]
    rw [parseRangeHeader_payload _ _ hx hws, hsplit]
    rw [if_pos (by simp only [first2])]
    simp only [first2]
    rw [js_parseInt_digits kk hk hkd]
    show rangeValidate (some (max 0 (L - (digitsVal kk : Int)))) (some (L - 1)) (some L) = _
    rw [rangeValidate, if_neg (by simp only [jlt, jge, jgt]; omega)]
    have hmax : max 0 (L - (digitsVal kk : Int)) = L - (digitsVal kk : Int) := by omega
    rw [hmax]
  · intro h1
    have hx : ',' ∉ a ++ ['-'] := by
      intro hc
      rcases List.mem_append.mp hc with hc | hc
      · exact digit_ne_comma ',' (had ',' hc) rfl
      · exact absurd hc (by decide)
    have hws : ∀ c ∈ a ++ ['-'], isWsChar c = false := by
      intro c hc
      rcases List.mem_append.mp hc with hc | hc
      · exact digit_not_ws c (had c hc)
      · rcases List.mem_cons.mp hc with rfl | hc
        · decide
        · exact absurd hc (by simp)
    have hsplit : splitOnChar '-' (a ++ ['-']) = [a, []] := by
      rw [splitOnChar_append_sep '-' a [] (fun hm => digit_ne_dash '-' (had '-' hm) rfl)]
      rfl
    rw [parseRangeHeader_payload _ _ hx hws, hsplit]
    rw [if_neg (by simp only [first2]; exact ha), if_pos (by simp only [first2])]
    simp only [first2]
    rw [js_parseInt_digits a ha had]
    show rangeValidate (some (digitsVal a : Int)) (some (L - 1)) (some L) = _
    rw [rangeValidate, if_neg (by simp only [jlt, jge, jgt]; omega)]

/-- C9: a missing url parameter, or a url failing validation (URL does not
parse, scheme is not https, or the lowercased path does not end in .pdf)
makes the handler answer 400 immediately: no upstream HEAD or GET, no cache
read or write, cache state unchanged. -/
theorem c9_invalid_url_400 (parseURL : List Char → Option URLParts) (f : Fetcher)
    (now : Int) (req : Req) (c0 : CacheSt (List Nat))
    (h : req.urlParam = none ∨
      ∃ url, req.urlParam = some url ∧
        (parseURL url = none ∨
          ∃ u, parseURL url = some u ∧
            (u.protocol ≠ str "https:" ∨
              ¬ ((str ".pdf").isSuffixOf (jsToLower u.pathname) = true)))) :
    GET2 parseURL f now req c0 = some ⟨400, c0, 0, 0, 0, 0⟩ := by
  rcases h with h | ⟨url, hurl, hbad⟩
  · simp only [GET2, h]
  · have hval : validateUrl parseURL url = false := by
      rcases hbad with hp | ⟨u, hu, hbad⟩
      · simp only [validateUrl, hp]
      · simp only [validateUrl, hu]
        rcases hbad with hproto | hpdf
        · rw [if_pos hproto]
        · by_cases hproto : u.protocol ≠ str "https:"
          · rw [if_pos hproto]
          · rw [if_neg hproto]
            by_cases hhost : u.hostname = str "localhost" ∨
                (str "127.").isPrefixOf u.hostname = true ∨
                (str "192.168.").isPrefixOf u.hostname = true ∨
                (str "10.").isPrefixOf u.hostname = true ∨
                (str "172.").isPrefixOf u.hostname = true
            · rw [if_pos hhost]
            · rw [if_neg hhost, if_pos hpdf]
    have hv : ¬ (validateUrl parseURL url = true) := by simp [hval]
    simp only [GET2, hurl, if_pos hv]

/-- Witness for C9: missing url parameter. -/
theorem c9_invalid_url_400_witness :
    GET2 (fun _ => none) f404 0 ⟨none, none⟩ ⟨[], 0⟩ =
      some ⟨400, ⟨[], 0⟩, 0, 0, 0, 0⟩ :=
  c9_invalid_url_400 (fun _ => none) f404 0 ⟨none, none⟩ ⟨[], 0⟩ (Or.inl rfl)

/-- C4 (refuted as stated): on an upstream 404 (a non-2xx status) the handler
answers 404, forwarding the upstream status instead of mapping it to 502
(though it indeed caches nothing: cacheSets = 0 in the result). -/
theorem c4_upstream_status_cex :
    GET2 puAll f404 0 ⟨some (str "https://example.com/a.pdf"), none⟩ ⟨[], 0⟩ =
      some ⟨404, ⟨[], 0⟩, 0, 1, 1, 0⟩ ∧
    respOk 404 = false ∧ (404 : Nat) ≠ 502 := by decide

/-- C4 (amended): whenever the request passes URL validation and reaches the
upstream GET (full-file path with a cache miss, or ranged path with
successful HEAD, nonzero content length and a valid range), a non-2xx
upstream answer makes the handler respond with the upstream's own status and
write nothing to the cache. -/
theorem c4_upstream_error_no_cache (parseURL : List Char → Option URLParts) (f : Fetcher)
    (now : Int) (req : Req) (c0 : CacheSt (List Nat)) (url : List Char)
    (hurl : req.urlParam = some url)
    (hval : validateUrl parseURL url = true)
    (hbad : respOk f.getStatus = false)
    (hpath : (req.rangeHeader = none ∧ (get2 now url c0).1 = none) ∨
      (∃ rh r0, req.rangeHeader = some rh ∧ respOk f.headStatus = true ∧
        js_parseInt (f.headContentLength.getD (str "0")) ≠ some 0 ∧
        parseRangeHeader rh (js_parseInt (f.headContentLength.getD (str "0"))) =
          some r0)) :
    ∃ res, GET2 parseURL f now req c0 = some res ∧ res.status = f.getStatus ∧
      res.cacheSets = 0 ∧ res.getCalls = 1 := by
  have hv2 : ¬ ¬ (validateUrl parseURL url = true) := by simp [hval]
  have hbad2 : ¬ ¬ (respOk f.getStatus = true) → False := fun hh =>
    absurd hbad (by simpa using hh)
  rcases hpath with ⟨hrng, hmiss⟩ | ⟨rh, r0, hrh, hhead, hcl, hparse⟩
  · refine ⟨⟨f.getStatus, (get2 now url c0).2, 0, 1, 1, 0⟩, ?_, rfl, rfl, rfl⟩
    simp only [GET2, hurl, if_neg hv2, hrng, proxyServe, hmiss]
    rw [proxyMiss, if_pos (by simp [hbad])]
  · obtain ⟨u1, u2⟩ := req
    simp only at hurl hrh
    subst hurl
    subst hrh
    rw [GET2_ranged parseURL f now url rh r0 c0 hval hhead hcl hparse]
    refine ⟨⟨f.getStatus, c0, 1, 1, 0, 0⟩, ?_, rfl, rfl, rfl⟩
    rw [proxyMiss, if_pos (by simp [hbad])]

/-- Witness for C4 (amended) at a concrete 404 upstream on the full-file
path with an empty cache. -/
theorem c4_upstream_error_no_cache_witness :
    ∃ res, GET2 puAll f404 0 ⟨some (str "https://example.com/a.pdf"), none⟩ ⟨[], 0⟩ =
        some res ∧ res.status = f404.getStatus ∧ res.cacheSets = 0 ∧ res.getCalls = 1 :=
  c4_upstream_error_no_cache puAll f404 0 ⟨some (str "https://example.com/a.pdf"), none⟩
    ⟨[], 0⟩ (str "https://example.com/a.pdf") rfl (by decide) (by decide)
    (Or.inl ⟨rfl, by decide⟩)

/-- C10: in the global-cache variant, a request whose Range header parses to
a valid range never reads the chunk cache (the probe runs only when no range
was parsed: cacheGets = 0), yet the ranged fetch result is written to the
cache under the range key; consequently a second identical ranged request
performs its own upstream GET again (getCalls = 1 in both runs). Stated from
the empty cache for any upstream whose GET succeeds with a body of at least
100 bytes and at most maxSize. -/
theorem c10_ranged_bypasses_cache (parseURL : List Char → Option URLParts) (f : Fetcher)
    (now : Int) (url rh : List Char) (r0 : RangeReq)
    (hval : validateUrl parseURL url = true)
    (hhead : respOk f.headStatus = true)
    (hcl : js_parseInt (f.headContentLength.getD (str "0")) ≠ some 0)
    (hparse : parseRangeHeader rh (js_parseInt (f.headContentLength.getD (str "0"))) =
      some r0)
    (hok : respOk f.getStatus = true)
    (hlen1 : 100 ≤ f.getBody.length)
    (hlen2 : (f.getBody.length : Int) ≤ maxSize) :
    ∃ res res2,
      GET2 parseURL f now ⟨some url, some rh⟩ ⟨[], 0⟩ = some res ∧
      res.cacheGets = 0 ∧ res.getCalls = 1 ∧
      lookupE
        (generateKey url (some (optimizeRange r0
          (js_parseInt (f.headContentLength.getD (str "0")))))) res.cache.entries =
        some ⟨f.getBody, now, 1, now, f.getBody.length⟩ ∧
      GET2 parseURL f now ⟨some url, some rh⟩ res.cache = some res2 ∧
      res2.cacheGets = 0 ∧ res2.getCalls = 1 := by
  obtain ⟨key, hkey⟩ : ∃ k, generateKey url (some (optimizeRange r0
      (js_parseInt (f.headContentLength.getD (str "0"))))) = k := ⟨_, rfl⟩
  rw [hkey]
  have hclean1 : cleanup now (⟨[], 0⟩ : CacheSt (List Nat)) = ⟨[], 0⟩ := rfl
  have hsub1 : setSub (⟨[], 0⟩ : CacheSt (List Nat)) key = ⟨[], 0⟩ := rfl
  have hset1 : set2 now key f.getBody ⟨[], 0⟩ =
      some ⟨[(key, ⟨f.getBody, now, 1, now, f.getBody.length⟩)],
        (f.getBody.length : Int)⟩ := by
    rw [set2, hclean1, setOp_no_evict now key f.getBody f.getBody.length ⟨[], 0⟩
      (by rw [hsub1]; rintro ⟨_, h2⟩; simp at h2)]
    rw [hsub1]
    norm_num [mapSet]
  obtain ⟨st1, hm1⟩ := proxyMiss_ranged_ok f now url
    (optimizeRange r0 (js_parseInt (f.headContentLength.getD (str "0")))) ⟨[], 0⟩
    ⟨[(key, ⟨f.getBody, now, 1, now, f.getBody.length⟩)], (f.getBody.length : Int)⟩ 1 0
    hok hlen1 (by rw [hkey]; exact hset1)
  have hexp : isExpired now
      (⟨f.getBody, now, 1, now, f.getBody.length⟩ : Entry (List Nat)) = false := by
    simp only [isExpired, ttl, gt_iff_lt, decide_eq_false_iff_not, not_lt]
    omega
  have hclean2 : cleanup now
      (⟨[(key, ⟨f.getBody, now, 1, now, f.getBody.length⟩)], (f.getBody.length : Int)⟩ :
        CacheSt (List Nat)) =
      ⟨[(key, ⟨f.getBody, now, 1, now, f.getBody.length⟩)], (f.getBody.length : Int)⟩ := by
    simp [cleanup, hexp]
  have hlook2 : lookupE key
      [(key, (⟨f.getBody, now, 1, now, f.getBody.length⟩ : Entry (List Nat)))] =
      some ⟨f.getBody, now, 1, now, f.getBody.length⟩ := by
    rw [lookupE, if_pos rfl]
  have hsub2 : setSub
      (⟨[(key, ⟨f.getBody, now, 1, now, f.getBody.length⟩)], (f.getBody.length : Int)⟩ :
        CacheSt (List Nat)) key =
      ⟨[(key, ⟨f.getBody, now, 1, now, f.getBody.length⟩)], 0⟩ := by
    simp only [setSub, hlook2]
    rw [sub_self]
  have hset2 : set2 now key f.getBody
      ⟨[(key, ⟨f.getBody, now, 1, now, f.getBody.length⟩)], (f.getBody.length : Int)⟩ =
      some ⟨[(key, ⟨f.getBody, now, 1, now, f.getBody.length⟩)],
        (f.getBody.length : Int)⟩ := by
    rw [set2, hclean2, setOp_no_evict now key f.getBody f.getBody.length _
      (by rw [hsub2]; rintro ⟨h1, _⟩; simp only [zero_add] at h1; omega)]
    rw [hsub2]
    rw [mapSet, if_pos rfl]
    norm_num
  obtain ⟨st2, hm2⟩ := proxyMiss_ranged_ok f now url
    (optimizeRange r0 (js_parseInt (f.headContentLength.getD (str "0"))))
    ⟨[(key, ⟨f.getBody, now, 1, now, f.getBody.length⟩)], (f.getBody.length : Int)⟩
    ⟨[(key, ⟨f.getBody, now, 1, now, f.getBody.length⟩)], (f.getBody.length : Int)⟩ 1 0
    hok hlen1 (by rw [hkey]; exact hset2)
  refine ⟨⟨st1, ⟨[(key, ⟨f.getBody, now, 1, now, f.getBody.length⟩)],
      (f.getBody.length : Int)⟩, 1, 1, 0, 1⟩,
    ⟨st2, ⟨[(key, ⟨f.getBody, now, 1, now, f.getBody.length⟩)],
      (f.getBody.length : Int)⟩, 1, 1, 0, 1⟩, ?_, rfl, rfl, hlook2, ?_, rfl, rfl⟩
  · rw [GET2_ranged parseURL f now url rh r0 ⟨[], 0⟩ hval hhead hcl hparse]
    exact hm1
  · rw [GET2_ranged parseURL f now url rh r0 _ hval hhead hcl hparse]
    exact hm2

/-- Witness for C10 on a concrete scenario: a valid https .pdf URL, header
bytes=0-99 against a 1000-byte resource, upstream 206 with a 100-byte body. -/
theorem c10_ranged_bypasses_cache_witness :
    ∃ res res2,
      GET2 puAll f206 0 ⟨some (str "https://example.com/a.pdf"), some (str "bytes=0-99")⟩
          ⟨[], 0⟩ = some res ∧
      res.cacheGets = 0 ∧ res.getCalls = 1 ∧
      lookupE
        (generateKey (str "https://example.com/a.pdf") (some (optimizeRange
          ⟨some 0, some 99, some 1000⟩
          (js_parseInt (f206.headContentLength.getD (str "0")))))) res.cache.entries =
        some ⟨f206.getBody, 0, 1, 0, f206.getBody.length⟩ ∧
      GET2 puAll f206 0 ⟨some (str "https://example.com/a.pdf"), some (str "bytes=0-99")⟩
          res.cache = some res2 ∧
      res2.cacheGets = 0 ∧ res2.getCalls = 1 :=
  c10_ranged_bypasses_cache puAll f206 0 (str "https://example.com/a.pdf")
    (str "bytes=0-99") ⟨some 0, some 99, some 1000⟩ (by decide) (by decide) (by decide)
    (by decide) (by decide) (by rw [show f206.getBody = zeros 100 from rfl, zeros_length])
    (by rw [show f206.getBody = zeros 100 from rfl, zeros_length]; decide)

/-- Witness for C5 at concrete digit strings against totalLength 10:
bytes=1-2, bytes=-3 and bytes=1-. -/
theorem c5_valid_range_forms_witness :
    parseRangeHeader (str "bytes=" ++ (['1'] ++ '-' :: ['2'])) (some 10) =
      some ⟨some (digitsVal ['1']), some (digitsVal ['2']), some 10⟩ ∧
    parseRangeHeader (str "bytes=" ++ ('-' :: ['3'])) (some 10) =
      some ⟨some (10 - (digitsVal ['3'] : Int)), some (10 - 1), some 10⟩ ∧
    parseRangeHeader (str "bytes=" ++ (['1'] ++ ['-'])) (some 10) =
      some ⟨some (digitsVal ['1']), some (10 - 1), some 10⟩ := by
  have h := c5_valid_range_forms 10 ['1'] ['2'] ['3'] (by decide) (by decide) (by decide)
    (by decide) (by decide) (by decide) (by decide)
  exact ⟨h.1 (by decide) (by decide), h.2.1 (by decide) (by decide), h.2.2 (by decide)⟩

/-- Witness for C2 (amended) on a concrete heap: buffer [1,2,3] at address 0,
set at time 0 and read back at time 5. -/
theorem c2_set_copy_get_reference_witness :
    (hget 5 ['k'] (⟨[(['k'], ⟨1, 0, 1, 0, 3⟩)], 3⟩ : CacheSt Nat)).1 = some 1 ∧
    readBuf [[1, 2, 3], [1, 2, 3]] 1 = readBuf [[1, 2, 3]] 0 ∧
    ∀ b2, readBuf (writeBuf [[1, 2, 3], [1, 2, 3]] 0 b2) 1 = readBuf [[1, 2, 3]] 0 := by
  have hs : hset 0 ['k'] 0 [[1, 2, 3]] ⟨[], 0⟩ =
      some ([[1, 2, 3], [1, 2, 3]], ⟨[(['k'], ⟨1, 0, 1, 0, 3⟩)], 3⟩) := by decide
  have hl : (([[1, 2, 3]] : Heap).length : Nat) = 1 := rfl
  have := c2_set_copy_get_reference 0 5 ['k'] 0 [[1, 2, 3]] [[1, 2, 3], [1, 2, 3]]
    ⟨[], 0⟩ ⟨[(['k'], ⟨1, 0, 1, 0, 3⟩)], 3⟩ hs (by decide) (by decide)
  rwa [hl] at this

end BookMark
